import Mathlib

/-!
Verification of the conversion-pipeline and upload-dedup core of a
sticker-importing library (source: src/mstickerlib/src/image.rs).

Modelling conventions:
* Rust `String` file names are embedded as `List Char` (the names here are
  ASCII, so byte-based `truncate` coincides with char-based `take`).
* Byte buffers (`Arc<Vec<u8>>`) are embedded as `List Nat`; the `Arc`
  sharing is irrelevant to the functional behaviour.
* `f64` arithmetic in the geometry function is embedded with exact
  rationals; rounding (`f64::round`, half away from zero on the
  non-negative values arising here) is Mathlib's `round` (half up).
* External collaborators that live outside the given source file
  (gzip decompression from `flate2`, the lottie renderer, the
  `webm2webp` video codec, the photon still-image codec, the matrix
  upload client, and the `Database` trait) are parameters of the
  corresponding stage functions, typed after the interfaces in the spec.
* The tokio/rayon offload executor is transparent in this pure model:
  a stage's result is the closure's result.
-/

/-- Byte buffers are lists of bytes. -/
abbrev Bytes := List Nat

/-- File names are lists of characters. -/
abbrev Name := List Char

/-- Rust `str::ends_with`, embedded as list-suffix. -/
def endsWith (s suffix : Name) : Bool := decide (suffix <:+ s)

/-- Rust `String::truncate (s.len - n)`: drop the last `n` characters. -/
def dropRight (s : Name) (n : Nat) : Name := s.take (s.length - n)

/-- Characters of the last path component: everything after the last slash
(`Path::file_name`, without the trailing `.`-component normalisation that
Rust paths additionally perform on names such as `a.b/.`). -/
def afterLastSep (s : Name) : Name :=
  ((s.reverse.takeWhile (fun c => c ≠ '/')).reverse)

/-- Extension of a single path component: the part after the last dot,
none when there is no dot or when the only dot is the leading character
(hidden files such as `.gitignore` have no extension in Rust). -/
def extSplit (f : Name) : Option Name :=
  let rev := f.reverse
  let e := rev.takeWhile (fun c => c ≠ '.')
  if e.length + 1 ≤ rev.length then
    if e.length + 1 = rev.length then none else some e.reverse
  else none

/-- Rust `Path::new(name).extension()`, embedded on the char list:
take the last component, treat the `..` component as having no
extension, otherwise split at the last dot. -/
def extension (s : Name) : Option Name :=
  let f := afterLastSep s
  if f = ['.', '.'] then none else extSplit f

/-- Transparent color parameter of the gif converter (lottieconv `Rgba`). -/
structure Rgba where
  r : Nat
  g : Nat
  b : Nat
  a : Nat
deriving DecidableEq

/-- Animation output format selector, from the source enum. -/
inductive AnimationFormat
  | Gif (transparent_color : Rgba)
  | Webp
deriving DecidableEq

/-- Generic image struct, containing the image data and its meta data
(source struct `Image`). -/
structure Image where
  file_name : Name
  data : Bytes
  width : Nat
  height : Nat
deriving DecidableEq

/-- Opaque matrix content locator returned by the upload collaborator. -/
structure Mxc where
  url : String
deriving DecidableEq

/-- Error kinds surfaced by the pipeline. The source's error enum lives in
a sibling file; the constructors here cover the kinds the modelled stages
produce: missing mime suffix, gzip decompression failure, animation load
failure, render/encode failure, video codec failure, cache failure, and
transport failure of the matrix upload. -/
inductive Error
  | NoMimeType
  | Decompression (e : String)
  | AnimationLoadError
  | Render (e : String)
  | Video (e : String)
  | Database (e : String)
  | Matrix (e : String)
deriving DecidableEq

/-- Outcome type distinguishing a Rust panic (an `unwrap` on a failed
decode) from a normal return. -/
inductive PanicOr (α : Type)
  | panicked
  | ok (a : α)
deriving DecidableEq

namespace Image

/-- Source `Image::mime_type`: derive the mime type from the file name's
extension; `video/` for `webm`, `image/` otherwise; error when the name
has no extension. -/
def mime_type (self : Image) : Except Error Name :=
  match extension self.file_name with
  | none => .error .NoMimeType
  | some ext =>
    .ok (if ext = "webm".toList then "video/".toList ++ ext else "image/".toList ++ ext)

/-- Source `Image::unpack_tgs`: gunzip a `.tgs` buffer into `.lottie`,
ignore other formats. `gz` is the flate2 `GzDecoder` collaborator; its
error is an io error in the source, surfaced as a decompression failure. -/
def unpack_tgs (gz : Bytes → Except String Bytes) (self : Image) : Except Error Image :=
  if endsWith self.file_name (".tgs".toList) then
    match gz self.data with
    | .error e => .error (.Decompression e)
    | .ok output =>
      .ok { self with
        data := output,
        file_name := dropRight self.file_name 3 ++ "lottie".toList }
  else .ok self

end Image

/-- Round-to-nearest of the fraction `a / b`, computed with natural
division so the kernel can evaluate it; `rndDiv_eq_round` shows it is
the round of the exact rational `a / b` (half away from zero on these
non-negative values, which is `f64::round`'s tie rule). -/
def rndDiv (a b : Nat) : Nat := (2 * a + b) / (2 * b)

/-- Equivalence of the executable rounding with Mathlib's `round` of the
exact rational quotient. -/
theorem rndDiv_eq_round (a b : Nat) (hb : 0 < b) :
    (rndDiv a b : ℤ) = round ((a : ℚ) / (b : ℚ)) := by
  have hb' : ((b : ℚ)) ≠ 0 := (Nat.cast_pos.mpr hb).ne'
  have hx : (a : ℚ) / (b : ℚ) + 1 / 2 = (((2 * a + b : ℕ) : ℤ) : ℚ) / (((2 * b : ℕ)) : ℚ) := by
    push_cast
    field_simp
    ring
  rw [round_eq, hx, Rat.floor_intCast_div_natCast]
  simp only [rndDiv, Int.ofNat_ediv]

/-- Source `Image::resize_preserving_aspect_ratio`. The `f64` arithmetic
of the source is embedded as exact rational arithmetic, realised by the
integer rounding division `rndDiv`: when only one bound is present the
free dimension follows the aspect ratio rounded to nearest, and when
both bounds are present the scale is the smaller of `w / width` and
`h / height` (the comparison `w * height ≤ h * width` is that of the two
exact fractions). Division by a zero dimension, non-finite in the
source's floats and an explicit open question of the spec, is natural
division by zero here. -/
def resize_preserving_aspect_ratio (width height : Nat)
    (max_width max_height : Option Nat) : Nat × Nat :=
  match max_width, max_height with
  | none, none => (width, height)
  | some w, none => (w, rndDiv (w * height) width)
  | none, some h => (rndDiv (h * width) height, h)
  | some w, some h =>
    if w * height ≤ h * width then (w, rndDiv (w * height) width)
    else (rndDiv (h * width) height, h)

example : ( resize_preserving_aspect_ratio 1920 1080 none none) = (1920, 1080) := by decide
example : ( resize_preserving_aspect_ratio 1920 1080 (some 960) none) = (960, 540) := by decide
example : ( resize_preserving_aspect_ratio 1920 1080 none (some 270)) = (480, 270) := by decide
example : ( resize_preserving_aspect_ratio 1920 1080 (some 500) (some 500)) = (500, 281) := by decide

/-- Interface of the lottie render collaborator (the `lottieconv` crate):
loading an animation from the buffer yields its native pixel size or
fails, and the gif/webp converters render the animation at a target size
to encoded bytes or fail. The temporary file through which the source
hands the buffer to the renderer is transparent here (the renderer reads
back exactly the bytes written). -/
structure LottieConv where
  load : Bytes → Option (Nat × Nat)
  gif : Bytes → Nat × Nat → Rgba → Except String Bytes
  webp : Bytes → Nat × Nat → Except String Bytes

/-- Interface of the photon still-image codec used by `resize`: decode a
buffer to a raster image (exposing its pixel size) and re-encode the
resampled raster to webp bytes. `encodeWebp` is the composition of
`transform::resize` at the target size with `get_bytes_webp`. -/
structure StillCodec where
  decode : Bytes → Option (Nat × Nat)
  encodeWebp : Bytes → Nat → Nat → Bytes

namespace Image

/-- Source `Image::convert_lottie`: convert a `.lottie` image to webp or
gif, ignore other formats. Mirrors the source's control flow: the
`.lottie` suffix gate first, then a call to `unpack_tgs`, then loading
the animation, computing the target size, rendering in the branch chosen
by `animation_format`, and renaming the 6-character suffix. -/
def convert_lottie (gz : Bytes → Except String Bytes) (lc : LottieConv)
    (animation_format : AnimationFormat) (max_width max_height : Option Nat)
    (self : Image) : Except Error Image :=
  if endsWith self.file_name (".lottie".toList) then
    match unpack_tgs gz self with
    | .error e => .error e
    | .ok image =>
      match lc.load image.data with
      | none => .error .AnimationLoadError
      | some (w, h) =>
        let new_size := resize_preserving_aspect_ratio w h max_width max_height
        let base := dropRight image.file_name 6
        match animation_format with
        | .Gif transparent_color =>
          match lc.gif image.data new_size transparent_color with
          | .error e => .error (.Render e)
          | .ok data =>
            .ok { file_name := base ++ "gif".toList,
                  data := data,
                  width := new_size.1,
                  height := new_size.2 }
        | .Webp =>
          match lc.webp image.data new_size with
          | .error e => .error (.Render e)
          | .ok data =>
            .ok { file_name := base ++ "webp".toList,
                  data := data,
                  width := new_size.1,
                  height := new_size.2 }
  else .ok self

/-- Source `Image::convert_webm2webp`: convert a `.webm` video sticker to
webp, ignore other formats. `w2w` is the external `webm2webp` video
codec, which receives the buffer (via a transparent temporary file) and
the optional target dimensions and returns the encoded bytes together
with the final width and height it chose. The rename replaces the
trailing `m` with `p`. -/
def convert_webm2webp (w2w : Bytes → Option Nat → Option Nat → Except String (Bytes × Nat × Nat))
    (new_width new_height : Option Nat) (self : Image) : Except Error Image :=
  if endsWith self.file_name (".webm".toList) then
    match w2w self.data new_width new_height with
    | .error e => .error (.Video e)
    | .ok (webp, width, height) =>
      .ok { file_name := dropRight self.file_name 1 ++ "p".toList,
            data := webp,
            width := width,
            height := height }
  else .ok self

/-- Source `Image::resize`: decode the buffer, compute the target size
with the geometry function, resample and re-encode to webp, and update
the dimensions. The source calls `open_image_from_bytes(..).unwrap()`,
so a buffer the codec cannot decode panics instead of surfacing an
error; the panic is the `panicked` outcome. The file name is left
untouched. -/
def resize (codec : StillCodec) (self : Image) (max_width max_height : Nat) :
    PanicOr Image :=
  match codec.decode self.data with
  | none => .panicked
  | some (img_width, img_height) =>
    let wh := resize_preserving_aspect_ratio img_width img_height (some max_width) (some max_height)
    .ok { self with
          data := codec.encodeWebp self.data wh.1 wh.2,
          width := wh.1,
          height := wh.2 }

end Image

/-- Interface of the cache collaborator (the `Database` trait, §6 of the
spec): `get` maps a fingerprint to the stored locator or `none`, `add`
records a fingerprint-to-locator mapping; either may fail with a
database error. The instance state `S` is threaded explicitly; a failed
`add` leaves the state as it was. -/
structure DatabaseModel (S : Type) where
  get : S → Nat → Except String (Option String)
  add : S → Nat → String → Except String S

/-- Result of one `upload` call: the returned value (or error), the
cache state afterwards, and the list of invocations of the remote
upload collaborator, each recording the name, bytes and mime type it
was passed. -/
structure UploadResult (S : Type) where
  result : Except Error (Mxc × Bool)
  dbState : Option S
  remoteCalls : List (Name × Bytes × Name)

namespace Image

/-- Cache-miss path of `upload` (also the no-cache path): derive the
mime type from the file name (failing with `NoMimeType`), invoke the
remote upload collaborator, and on success record the mapping in the
cache before returning `is_new = true`. -/
def upload_miss {S : Type} (dbm : DatabaseModel S) (hash : Bytes → Nat)
    (remote : Name → Bytes → Name → Except String Mxc)
    (self : Image) (db : Option S) : UploadResult S :=
  match self.mime_type with
  | .error _ => ⟨.error .NoMimeType, db, []⟩
  | .ok mime =>
    match remote self.file_name self.data mime with
    | .error e => ⟨.error (.Matrix e), db, [(self.file_name, self.data, mime)]⟩
    | .ok mxc =>
      match db with
      | none => ⟨.ok (mxc, true), none, [(self.file_name, self.data, mime)]⟩
      | some s =>
        match dbm.add s (hash self.data) mxc.url with
        | .error e => ⟨.error (.Database e), some s, [(self.file_name, self.data, mime)]⟩
        | .ok s2 => ⟨.ok (mxc, true), some s2, [(self.file_name, self.data, mime)]⟩

/-- Source `Image::upload`: compute the content fingerprint of the
bytes, consult the cache when one is supplied (a hit returns the stored
locator with `is_new = false` without contacting the remote store), and
otherwise take the miss path. `hash` is the fingerprint collaborator of
the `database` module: a deterministic function of the bytes alone. -/
def upload {S : Type} (dbm : DatabaseModel S) (hash : Bytes → Nat)
    (remote : Name → Bytes → Name → Except String Mxc)
    (self : Image) (db : Option S) : UploadResult S :=
  match db with
  | some s =>
    match dbm.get s (hash self.data) with
    | .error e => ⟨.error (.Database e), some s, []⟩
    | .ok (some url) => ⟨.ok (⟨url⟩, false), some s, []⟩
    | .ok none => upload_miss dbm hash remote self (some s)
  | none => upload_miss dbm hash remote self none

end Image

/-! Helper lemmas about suffixes, `dropRight` and `extension`. -/

theorem endsWith_iff {s l : Name} : endsWith s l = true ↔ l <:+ s := by
  simp [endsWith]

theorem endsWith_false_iff {s l : Name} : endsWith s l = false ↔ ¬ l <:+ s := by
  simp [endsWith]

theorem getLast?_of_suffix {s l : Name} {c : Char} (h : (l ++ [c]) <:+ s) :
    s.getLast? = some c := by
  obtain ⟨t, rfl⟩ := h
  rw [← List.append_assoc]
  exact List.getLast?_concat _

theorem not_suffix_of_last_ne {s l₁ l₂ : Name} {c₁ c₂ : Char}
    (h : (l₁ ++ [c₁]) <:+ s) (hne : c₁ ≠ c₂) : ¬ (l₂ ++ [c₂]) <:+ s := by
  intro h2
  exact hne (Option.some.inj ((getLast?_of_suffix h).symm.trans (getLast?_of_suffix h2)))

theorem takeWhile_append_all {p : Char → Bool} {xs ys : List Char}
    (h : ∀ x ∈ xs, p x) : (xs ++ ys).takeWhile p = xs ++ ys.takeWhile p := by
  induction xs with
  | nil => simp
  | cons a xs ih =>
    have ha : p a := h a (List.mem_cons_self a xs)
    simp only [List.cons_append, List.takeWhile_cons, ha, if_true]
    rw [ih (fun x hx => h x (List.mem_cons_of_mem a hx))]

theorem afterLastSep_append (s l : Name) (h : ∀ c ∈ l, ¬ c = '/') :
    afterLastSep (s ++ l) = afterLastSep s ++ l := by
  unfold afterLastSep
  rw [List.reverse_append,
    takeWhile_append_all (fun x hx => by
      simpa using h x (List.mem_reverse.1 hx)),
    List.reverse_append, List.reverse_reverse]

theorem dropRight_append_of_le (t l : Name) (n : Nat) (h : n ≤ l.length) :
    dropRight (t ++ l) n = t ++ dropRight l n := by
  unfold dropRight
  rw [List.length_append]
  have h1 : t.length + l.length - n = t.length + (l.length - n) := by omega
  rw [h1, List.take_append]

/-- Computation of `extension` on a name of the shape `t ++ "." ++ l`
with `l` a non-empty extension free of dots and slashes: the extension
is `l`, except that it vanishes when the final path component starts
with that dot (a hidden file). -/
theorem extension_concat (t l : Name) (hne : l ≠ [])
    (hl : ∀ c ∈ l, ¬ c = '.' ∧ ¬ c = '/') :
    extension (t ++ '.' :: l) = if afterLastSep t = [] then none else some l := by
  have hsep : afterLastSep (t ++ '.' :: l) = afterLastSep t ++ '.' :: l := by
    refine afterLastSep_append t ('.' :: l) ?_
    intro c hc
    rcases List.mem_cons.1 hc with hc | hc
    · subst hc; decide
    · exact (hl c hc).2
  have hdd : ¬ (afterLastSep t ++ '.' :: l = ['.', '.']) := by
    intro he
    cases l with
    | nil => exact hne rfl
    | cons a l' =>
      have hlen := congrArg List.length he
      simp only [List.length_append, List.length_cons, List.length] at hlen
      have hf0 : (afterLastSep t).length = 0 ∧ l'.length = 0 := by omega
      have hf : afterLastSep t = [] := List.length_eq_zero.1 hf0.1
      have hl2 : l' = [] := List.length_eq_zero.1 hf0.2
      subst hl2
      rw [hf, List.nil_append] at he
      have ha : a = '.' := by
        have := List.cons.inj he
        exact (List.cons.inj this.2).1
      exact (hl a (by simp)).1 ha
  have hrev : (afterLastSep t ++ '.' :: l).reverse = l.reverse ++ '.' :: (afterLastSep t).reverse := by
    simp
  have htw : (l.reverse ++ '.' :: (afterLastSep t).reverse).takeWhile (fun c => c ≠ '.') =
      l.reverse := by
    rw [takeWhile_append_all (fun x hx => by
      simpa using (hl x (List.mem_reverse.1 hx)).1)]
    rw [List.takeWhile_cons]
    simp
  unfold extension extSplit
  rw [hsep, if_neg hdd, hrev]
  simp only [htw, List.length_reverse, List.length_append, List.length_cons,
    List.reverse_reverse]
  by_cases hf : afterLastSep t = []
  · rw [hf]
    simp
  · have hfl : 0 < (afterLastSep t).length := List.length_pos.2 hf
    rw [if_pos (by omega), if_neg (by omega), if_neg hf]

/-- C9: on a name ending in `.tgs`, a successful `unpack_tgs` replaces
the data with the gzip-decompressed bytes and renames by dropping the
3-character suffix and appending `lottie` (so `x.tgs` becomes
`x.lottie`), while a failing decompression surfaces a decompression
error. -/
theorem unpack_tgs_spec (gz : Bytes → Except String Bytes) (img : Image)
    (h : endsWith img.file_name (".tgs".toList) = true) :
    (∀ out, gz img.data = .ok out →
      Image.unpack_tgs gz img =
        .ok ⟨ dropRight img.file_name 3 ++ "lottie".toList, out, img.width, img.height⟩) ∧
    (∀ e, gz img.data = .error e →
      Image.unpack_tgs gz img = .error (.Decompression e)) ∧
    (∀ t, dropRight (t ++ ".tgs".toList) 3 ++ "lottie".toList = t ++ ".lottie".toList) := by
  refine ⟨fun out hgz => ?_, fun e hgz => ?_, fun t => ?_⟩
  · unfold Image.unpack_tgs
    rw [h, hgz]
    simp
  · unfold Image.unpack_tgs
    rw [h, hgz]
    simp
  · rw [ dropRight_append_of_le t _ 3 (by decide), List.append_assoc]
    rfl

/-- Witness for C9 at a concrete image. -/
theorem unpack_tgs_spec_witness :
    Image.unpack_tgs (fun _ => .ok [7]) ⟨"x.tgs".toList, [1], 2, 3⟩ =
      .ok ⟨"x.lottie".toList, [7], 2, 3⟩ :=
  (unpack_tgs_spec (fun _ => .ok [7]) ⟨"x.tgs".toList, [1], 2, 3⟩ (by decide)).1 [7] rfl

/-- C10: a successful `unpack_tgs` on a `.tgs` name leaves the width and
height fields unchanged. -/
theorem unpack_tgs_preserves_dims (gz : Bytes → Except String Bytes)
    (img out : Image)
    (h : endsWith img.file_name (".tgs".toList) = true)
    (hok : Image.unpack_tgs gz img = .ok out) :
    out.width = img.width ∧ out.height = img.height := by
  unfold Image.unpack_tgs at hok
  rw [h] at hok
  simp only [if_true] at hok
  cases hgz : gz img.data with
  | error e => rw [hgz] at hok; cases hok
  | ok o =>
    rw [hgz] at hok
    cases hok
    exact ⟨rfl, rfl⟩

/-- Witness for C10 at a concrete image. -/
theorem unpack_tgs_preserves_dims_witness :
    (Image.mk ("x.lottie".toList) [7] 2 3).width = (Image.mk ("x.tgs".toList) [1] 2 3).width ∧
    (Image.mk ("x.lottie".toList) [7] 2 3).height = (Image.mk ("x.tgs".toList) [1] 2 3).height :=
  unpack_tgs_preserves_dims (fun _ => .ok [7]) ⟨"x.tgs".toList, [1], 2, 3⟩
    ⟨"x.lottie".toList, [7], 2, 3⟩ (by decide) rfl

/-- C3: each suffix-gated stage is the identity on an object whose name
does not end in its expected input suffix: `unpack_tgs` on non-`.tgs`,
`convert_lottie` on non-`.lottie` and `convert_webm2webp` on non-`.webm`
names return the object with the same name, byte-for-byte identical
data, and the same width and height. -/
theorem stage_skip_on_suffix_mismatch (gz : Bytes → Except String Bytes)
    (lc : LottieConv)
    (w2w : Bytes → Option Nat → Option Nat → Except String (Bytes × Nat × Nat))
    (fmt : AnimationFormat) (mw mh nw nh : Option Nat) (img : Image) :
    (endsWith img.file_name (".tgs".toList) = false → Image.unpack_tgs gz img = .ok img) ∧
    (endsWith img.file_name (".lottie".toList) = false →
      Image.convert_lottie gz lc fmt mw mh img = .ok img) ∧
    (endsWith img.file_name (".webm".toList) = false →
      Image.convert_webm2webp w2w nw nh img = .ok img) := by
  refine ⟨fun h => ?_, fun h => ?_, fun h => ?_⟩
  · unfold Image.unpack_tgs
    rw [h]
    simp
  · unfold Image.convert_lottie
    rw [h]
    simp
  · unfold Image.convert_webm2webp
    rw [h]
    simp

/-- Witness for C3 at a concrete image whose suffix matches no stage. -/
theorem stage_skip_on_suffix_mismatch_witness :
    Image.unpack_tgs (fun _ => .ok [7]) ⟨"a.xyz".toList, [1], 2, 3⟩ =
      .ok ⟨"a.xyz".toList, [1], 2, 3⟩ ∧
    Image.convert_lottie (fun _ => .ok [7])
      ⟨fun _ => some (4, 4), fun _ _ _ => .ok [4], fun _ _ => .ok [3]⟩
      .Webp none none ⟨"a.xyz".toList, [1], 2, 3⟩ = .ok ⟨"a.xyz".toList, [1], 2, 3⟩ ∧
    Image.convert_webm2webp (fun _ _ _ => .ok ([3], 5, 5)) none none
      ⟨"a.xyz".toList, [1], 2, 3⟩ = .ok ⟨"a.xyz".toList, [1], 2, 3⟩ :=
  ⟨(stage_skip_on_suffix_mismatch (fun _ => .ok [7])
      ⟨fun _ => some (4, 4), fun _ _ _ => .ok [4], fun _ _ => .ok [3]⟩
      (fun _ _ _ => .ok ([3], 5, 5)) .Webp none none none none
      ⟨"a.xyz".toList, [1], 2, 3⟩).1 (by decide),
   (stage_skip_on_suffix_mismatch (fun _ => .ok [7])
      ⟨fun _ => some (4, 4), fun _ _ _ => .ok [4], fun _ _ => .ok [3]⟩
      (fun _ _ _ => .ok ([3], 5, 5)) .Webp none none none none
      ⟨"a.xyz".toList, [1], 2, 3⟩).2.1 (by decide),
   (stage_skip_on_suffix_mismatch (fun _ => .ok [7])
      ⟨fun _ => some (4, 4), fun _ _ _ => .ok [4], fun _ _ => .ok [3]⟩
      (fun _ _ _ => .ok ([3], 5, 5)) .Webp none none none none
      ⟨"a.xyz".toList, [1], 2, 3⟩).2.2 (by decide)⟩

/-- C4 (divergence witness): `convert_lottie` returns an object whose
name ends in `.tgs` unchanged, because its `.lottie` suffix gate fires
before the internal `unpack_tgs` call ever runs; the claim (and the
source's own doc comment) instead say that a `.tgs` object passed
directly is decompressed and converted. -/
theorem convert_lottie_returns_tgs_unchanged (gz : Bytes → Except String Bytes)
    (lc : LottieConv) (fmt : AnimationFormat) (mw mh : Option Nat) (img : Image)
    (h : endsWith img.file_name (".tgs".toList) = true) :
    Image.convert_lottie gz lc fmt mw mh img = .ok img := by
  have hs : (".tg".toList ++ ['s']) <:+ img.file_name := endsWith_iff.1 h
  have hnl : ¬ (".lotti".toList ++ ['e']) <:+ img.file_name :=
    not_suffix_of_last_ne hs (by decide)
  have hfalse : endsWith img.file_name (".lottie".toList) = false :=
    endsWith_false_iff.2 hnl
  unfold Image.convert_lottie
  rw [hfalse]
  simp

/-- Witness for C4's divergence theorem: a concrete `.tgs` image passes
through `convert_lottie` untouched. -/
theorem convert_lottie_returns_tgs_unchanged_witness :
    Image.convert_lottie (fun _ => .ok [7])
      ⟨fun _ => some (4, 4), fun _ _ _ => .ok [4], fun _ _ => .ok [3]⟩
      .Webp none none ⟨"sticker.tgs".toList, [1], 2, 3⟩ =
      .ok ⟨"sticker.tgs".toList, [1], 2, 3⟩ :=
  convert_lottie_returns_tgs_unchanged (fun _ => .ok [7])
    ⟨fun _ => some (4, 4), fun _ _ _ => .ok [4], fun _ _ => .ok [3]⟩
    .Webp none none ⟨"sticker.tgs".toList, [1], 2, 3⟩ (by decide)

/-- C5 (divergence witness): on a buffer the still-image codec cannot
decode, `resize` panics (the source unwraps the decode result), instead
of returning the image-decode error the claim describes. -/
theorem resize_panics_on_undecodable (codec : StillCodec) (img : Image)
    (mw mh : Nat) (h : codec.decode img.data = none) :
    Image.resize codec img mw mh = .panicked := by
  simp [Image.resize, h]

/-- C6: the geometry function maps the four cited inputs to the cited
results, and in the both-bounds-present case it scales both dimensions
by the smaller of the two ratios, rounding each to the nearest integer
independently. -/
theorem geometry_spec :
    ( resize_preserving_aspect_ratio 1920 1080 none none) = (1920, 1080) ∧
    ( resize_preserving_aspect_ratio 1920 1080 (some 960) none) = (960, 540) ∧
    ( resize_preserving_aspect_ratio 1920 1080 none (some 270)) = (480, 270) ∧
    ( resize_preserving_aspect_ratio 1920 1080 (some 500) (some 500)) = (500, 281) ∧
    ∀ (w h mw mh : Nat), 0 < w → 0 < h →
      ( resize_preserving_aspect_ratio w h (some mw) (some mh)) =
        ((round ((w : ℚ) * min ((mw : ℚ) / (w : ℚ)) ((mh : ℚ) / (h : ℚ)))).toNat,
         (round ((h : ℚ) * min ((mw : ℚ) / (w : ℚ)) ((mh : ℚ) / (h : ℚ)))).toNat) := by
  refine ⟨by decide, by decide, by decide, by decide, ?_⟩
  intro w h mw mh hw hh
  have hw0 : (0 : ℚ) < (w : ℚ) := by exact_mod_cast hw
  have hh0 : (0 : ℚ) < (h : ℚ) := by exact_mod_cast hh
  simp only [ resize_preserving_aspect_ratio]
  by_cases hc : mw * h ≤ mh * w
  · have hmin : min ((mw : ℚ) / (w : ℚ)) ((mh : ℚ) / (h : ℚ)) = (mw : ℚ) / (w : ℚ) := by
      apply min_eq_left
      rw [div_le_div_iff₀ hw0 hh0]
      exact_mod_cast hc
    rw [if_pos hc, hmin]
    have h1 : (w : ℚ) * ((mw : ℚ) / (w : ℚ)) = (mw : ℚ) := by
      field_simp
    have h2 : (h : ℚ) * ((mw : ℚ) / (w : ℚ)) = ((mw * h : ℕ) : ℚ) / ((w : ℕ) : ℚ) := by
      push_cast
      ring
    rw [h1, h2, round_natCast, Int.toNat_natCast, ← rndDiv_eq_round _ _ hw,
      Int.toNat_natCast]
  · have hc' : mh * w ≤ mw * h := le_of_lt (Nat.lt_of_not_le hc)
    have hmin : min ((mw : ℚ) / (w : ℚ)) ((mh : ℚ) / (h : ℚ)) = (mh : ℚ) / (h : ℚ) := by
      apply min_eq_right
      rw [div_le_div_iff₀ hh0 hw0]
      exact_mod_cast hc'
    rw [if_neg hc, hmin]
    have h1 : (h : ℚ) * ((mh : ℚ) / (h : ℚ)) = (mh : ℚ) := by
      field_simp
    have h2 : (w : ℚ) * ((mh : ℚ) / (h : ℚ)) = ((mh * w : ℕ) : ℚ) / ((h : ℕ) : ℚ) := by
      push_cast
      ring
    rw [h1, h2, round_natCast, Int.toNat_natCast, ← rndDiv_eq_round _ _ hh,
      Int.toNat_natCast]

/-- Witness for C5's divergence theorem at a concrete undecodable
buffer. -/
theorem resize_panics_on_undecodable_witness :
    Image.resize ⟨fun _ => none, fun _ _ _ => [3]⟩ ⟨"a.png".toList, [], 2, 3⟩ 100 100 =
      .panicked :=
  resize_panics_on_undecodable ⟨fun _ => none, fun _ _ _ => [3]⟩
    ⟨"a.png".toList, [], 2, 3⟩ 100 100 rfl

/-- Witness for C6 at the spec's concrete both-bounds input, with the
general characterisation instantiated there. -/
theorem geometry_spec_witness :
    ( resize_preserving_aspect_ratio 1920 1080 (some 500) (some 500)) =
      ((round (((1920 : ℕ) : ℚ) * min (((500 : ℕ) : ℚ) / ((1920 : ℕ) : ℚ))
          (((500 : ℕ) : ℚ) / ((1080 : ℕ) : ℚ)))).toNat,
       (round (((1080 : ℕ) : ℚ) * min (((500 : ℕ) : ℚ) / ((1920 : ℕ) : ℚ))
          (((500 : ℕ) : ℚ) / ((1080 : ℕ) : ℚ)))).toNat) :=
  geometry_spec.2.2.2.2 1920 1080 500 500 (by decide) (by decide)

/-- C1: through one cache instance behaving as its interface contract
requires (an initial miss, a successful add, and a get that afterwards
returns what was added), uploading the same byte content twice returns
`is_new = true` the first time and `is_new = false` the second time; the
second call performs no remote upload (its call trace is empty) and
returns the stored locator. -/
theorem upload_dedup {S : Type} (dbm : DatabaseModel S) (hash : Bytes → Nat)
    (remote : Name → Bytes → Name → Except String Mxc) (img1 img2 : Image)
    (s s' : S) (mime : Name) (mxc : Mxc)
    (hdata : img2.data = img1.data)
    (hmiss : dbm.get s (hash img1.data) = .ok none)
    (hmime : img1.mime_type = .ok mime)
    (hremote : remote img1.file_name img1.data mime = .ok mxc)
    (hadd : dbm.add s (hash img1.data) mxc.url = .ok s')
    (hget : dbm.get s' (hash img1.data) = .ok (some mxc.url)) :
    Image.upload dbm hash remote img1 (some s) =
      ⟨.ok (mxc, true), some s', [(img1.file_name, img1.data, mime)]⟩ ∧
    Image.upload dbm hash remote img2 (some s') =
      ⟨.ok (⟨mxc.url⟩, false), some s', []⟩ := by
  constructor
  · simp only [Image.upload, Image.upload_miss, hmiss, hmime, hremote, hadd]
  · simp only [Image.upload, hdata, hget]

/-- Witness for C1 with the association-list cache, a length fingerprint
and a constant remote collaborator. -/
theorem upload_dedup_witness :
    Image.upload (S := List (Nat × String))
      ⟨fun s fp => .ok (List.lookup fp s), fun s fp u => .ok ((fp, u) :: s)⟩
      (fun b => b.length) (fun _ _ _ => .ok ⟨"mxc1"⟩)
      ⟨"a.png".toList, [1, 2, 3], 0, 0⟩ (some []) =
      ⟨.ok (⟨"mxc1"⟩, true), some [(3, "mxc1")],
        [("a.png".toList, [1, 2, 3], "image/png".toList)]⟩ ∧
    Image.upload (S := List (Nat × String))
      ⟨fun s fp => .ok (List.lookup fp s), fun s fp u => .ok ((fp, u) :: s)⟩
      (fun b => b.length) (fun _ _ _ => .ok ⟨"mxc1"⟩)
      ⟨"b.png".toList, [1, 2, 3], 9, 9⟩ (some [(3, "mxc1")]) =
      ⟨.ok (⟨"mxc1"⟩, false), some [(3, "mxc1")], []⟩ :=
  upload_dedup
    ⟨fun s fp => .ok (List.lookup fp s), fun s fp u => .ok ((fp, u) :: s)⟩
    (fun b => b.length) (fun _ _ _ => .ok ⟨"mxc1"⟩)
    ⟨"a.png".toList, [1, 2, 3], 0, 0⟩ ⟨"b.png".toList, [1, 2, 3], 9, 9⟩
    [] [(3, "mxc1")] ("image/png".toList) ⟨"mxc1"⟩
    rfl rfl rfl rfl rfl rfl

/-- C8: when the cache reports a miss and the remote upload then fails,
`upload` surfaces the transport error, the cache state is returned
unchanged, and the cache still has no entry for the fingerprint. -/
theorem upload_failure_no_cache_entry {S : Type} (dbm : DatabaseModel S)
    (hash : Bytes → Nat) (remote : Name → Bytes → Name → Except String Mxc)
    (img : Image) (s : S) (mime : Name) (e : String)
    (hmiss : dbm.get s (hash img.data) = .ok none)
    (hmime : img.mime_type = .ok mime)
    (hremote : remote img.file_name img.data mime = .error e) :
    Image.upload dbm hash remote img (some s) =
      ⟨.error (.Matrix e), some s, [(img.file_name, img.data, mime)]⟩ ∧
    dbm.get s (hash img.data) = .ok none := by
  refine ⟨?_, hmiss⟩
  simp only [Image.upload, Image.upload_miss, hmiss, hmime, hremote]

/-- Witness for C8 with the association-list cache and a failing remote
collaborator. -/
theorem upload_failure_no_cache_entry_witness :
    Image.upload (S := List (Nat × String))
      ⟨fun s fp => .ok (List.lookup fp s), fun s fp u => .ok ((fp, u) :: s)⟩
      (fun b => b.length) (fun _ _ _ => .error "boom")
      ⟨"a.png".toList, [1, 2, 3], 0, 0⟩ (some []) =
      ⟨.error (.Matrix "boom"), some [],
        [("a.png".toList, [1, 2, 3], "image/png".toList)]⟩ ∧
    (⟨fun s fp => .ok (List.lookup fp s), fun s fp u => .ok ((fp, u) :: s)⟩ :
        DatabaseModel (List (Nat × String))).get [] 3 = .ok none :=
  upload_failure_no_cache_entry
    ⟨fun s fp => .ok (List.lookup fp s), fun s fp u => .ok ((fp, u) :: s)⟩
    (fun b => b.length) (fun _ _ _ => .error "boom")
    ⟨"a.png".toList, [1, 2, 3], 0, 0⟩ [] ("image/png".toList) "boom"
    rfl rfl rfl


/-- Trace analysis of the miss path: any invocation of the remote
collaborator carries the object's name, its bytes, and the mime type
derived from the name's extension; and with no extension the miss path
fails with `NoMimeType` before any remote call. -/
theorem upload_miss_calls {S : Type} (dbm : DatabaseModel S) (hash : Bytes → Nat)
    (remote : Name → Bytes → Name → Except String Mxc) (img : Image) (db : Option S) :
    (∀ c ∈ (Image.upload_miss dbm hash remote img db).remoteCalls,
      ∃ ext, extension img.file_name = some ext ∧
        c = (img.file_name, img.data,
          if ext = "webm".toList then "video/".toList ++ ext
          else "image/".toList ++ ext)) ∧
    (extension img.file_name = none →
      (Image.upload_miss dbm hash remote img db).result = .error .NoMimeType ∧
      (Image.upload_miss dbm hash remote img db).remoteCalls = []) := by
  constructor
  · intro c hc
    cases hext : extension img.file_name with
    | none =>
      simp only [Image.upload_miss, Image.mime_type, hext] at hc
      simp at hc
    | some ext =>
      refine ⟨ext, rfl, ?_⟩
      simp only [Image.upload_miss, Image.mime_type, hext] at hc
      cases hrem : remote img.file_name img.data
          (if ext = "webm".toList then "video/".toList ++ ext
           else "image/".toList ++ ext) with
      | error e2 =>
        simp only [hrem] at hc
        simpa using hc
      | ok mxc =>
        simp only [hrem] at hc
        cases db with
        | none => simpa using hc
        | some s =>
          cases hadd : dbm.add s (hash img.data) mxc.url with
          | error e3 =>
            simp only [hadd] at hc
            simpa using hc
          | ok s2 =>
            simp only [hadd] at hc
            simpa using hc
  · intro hext
    constructor
    · simp only [Image.upload_miss, Image.mime_type, hext]
    · simp only [Image.upload_miss, Image.mime_type, hext]

/-- C7: every invocation of the remote upload collaborator is passed the
object's name, its bytes, and a mime type derived solely from the name's
extension (`video/` prefixed for `webm`, `image/` prefixed otherwise);
and on the paths that reach mime derivation (no cache supplied, or the
cache reporting a miss), a name without an extension makes `upload` fail
with `NoMimeType` with no remote call at all. -/
theorem upload_mime_from_suffix {S : Type} (dbm : DatabaseModel S)
    (hash : Bytes → Nat) (remote : Name → Bytes → Name → Except String Mxc)
    (img : Image) (db : Option S) :
    (∀ c ∈ (Image.upload dbm hash remote img db).remoteCalls,
      ∃ ext, extension img.file_name = some ext ∧
        c = (img.file_name, img.data,
          if ext = "webm".toList then "video/".toList ++ ext
          else "image/".toList ++ ext)) ∧
    ((db = none ∨ ∃ s, db = some s ∧ dbm.get s (hash img.data) = .ok none) →
      extension img.file_name = none →
      (Image.upload dbm hash remote img db).result = .error .NoMimeType ∧
      (Image.upload dbm hash remote img db).remoteCalls = []) := by
  constructor
  · intro c hc
    cases db with
    | none => exact (upload_miss_calls dbm hash remote img none).1 c hc
    | some s =>
      cases hget : dbm.get s (hash img.data) with
      | error e =>
        simp only [Image.upload, hget] at hc
        simp at hc
      | ok o =>
        cases o with
        | none =>
          simp only [Image.upload, hget] at hc
          exact (upload_miss_calls dbm hash remote img (some s)).1 c hc
        | some url =>
          simp only [Image.upload, hget] at hc
          simp at hc
  · rintro (rfl | ⟨s, rfl, hget⟩) hext
    · exact (upload_miss_calls dbm hash remote img none).2 hext
    · have hred : Image.upload dbm hash remote img (some s) =
          Image.upload_miss dbm hash remote img (some s) := by
        simp only [Image.upload, hget]
      rw [hred]
      exact (upload_miss_calls dbm hash remote img (some s)).2 hext

/-- Witness for C7: a name without an extension is rejected with
`NoMimeType` and produces no remote call, through the no-cache path. -/
theorem upload_mime_from_suffix_witness :
    (Image.upload (S := List (Nat × String))
      ⟨fun s fp => .ok (List.lookup fp s), fun s fp u => .ok ((fp, u) :: s)⟩
      (fun b => b.length) (fun _ _ _ => .ok ⟨"mxc1"⟩)
      ⟨"noext".toList, [1], 0, 0⟩ none).result = .error .NoMimeType ∧
    (Image.upload (S := List (Nat × String))
      ⟨fun s fp => .ok (List.lookup fp s), fun s fp u => .ok ((fp, u) :: s)⟩
      (fun b => b.length) (fun _ _ _ => .ok ⟨"mxc1"⟩)
      ⟨"noext".toList, [1], 0, 0⟩ none).remoteCalls = [] :=
  (upload_mime_from_suffix
    ⟨fun s fp => .ok (List.lookup fp s), fun s fp u => .ok ((fp, u) :: s)⟩
    (fun b => b.length) (fun _ _ _ => .ok ⟨"mxc1"⟩)
    ⟨"noext".toList, [1], 0, 0⟩ none).2 (Or.inl rfl) (by decide)

/-! Renaming computations shared by the suffix-invariant analysis. -/

theorem tgs_rename (t : Name) :
    dropRight (t ++ ".tgs".toList) 3 ++ "lottie".toList = t ++ ".lottie".toList := by
  rw [ dropRight_append_of_le t _ 3 (by decide), List.append_assoc]
  rfl

theorem lottie_rename_gif (t : Name) :
    dropRight (t ++ ".lottie".toList) 6 ++ "gif".toList = t ++ ".gif".toList := by
  rw [ dropRight_append_of_le t _ 6 (by decide), List.append_assoc]
  rfl

theorem lottie_rename_webp (t : Name) :
    dropRight (t ++ ".lottie".toList) 6 ++ "webp".toList = t ++ ".webp".toList := by
  rw [ dropRight_append_of_le t _ 6 (by decide), List.append_assoc]
  rfl

theorem webm_rename (t : Name) :
    dropRight (t ++ ".webm".toList) 1 ++ "p".toList = t ++ ".webp".toList := by
  rw [ dropRight_append_of_le t _ 1 (by decide), List.append_assoc]
  rfl

/-- The (name, bytes) coherence predicate of the spec's invariant: if the
name carries an extension at all, the bytes are encoded in the format
named by that extension, where `enc` is the format-tagging view of byte
buffers. -/
def SuffixOk (enc : Bytes → Option Name) (img : Image) : Prop :=
  ∀ e, extension img.file_name = some e → enc img.data = some e

theorem suffixOk_of_concat {enc : Bytes → Option Name} {t l : Name} {b : Bytes}
    {w h : Nat} (hne : l ≠ []) (hl : ∀ c ∈ l, ¬ c = '.' ∧ ¬ c = '/')
    (henc : afterLastSep t ≠ [] → enc b = some l) :
    SuffixOk enc ⟨t ++ '.' :: l, b, w, h⟩ := by
  intro e he
  rw [show (Image.mk (t ++ '.' :: l) b w h).file_name = t ++ '.' :: l from rfl,
    extension_concat t l hne hl] at he
  by_cases hf : afterLastSep t = []
  · rw [if_pos hf] at he
    cases he
  · rw [if_neg hf] at he
    cases he
    exact henc hf

theorem suffixOk_elim {enc : Bytes → Option Name} {img : Image} {t l : Name}
    (hok : SuffixOk enc img) (hname : img.file_name = t ++ '.' :: l)
    (hne : l ≠ []) (hl : ∀ c ∈ l, ¬ c = '.' ∧ ¬ c = '/')
    (hf : ¬ afterLastSep t = []) : enc img.data = some l := by
  apply hok
  rw [hname, extension_concat t l hne hl, if_neg hf]

/-- C2 (amended): with collaborators that produce correctly tagged
output (gunzipping tgs bytes yields lottie bytes, the gif and webp
renderers yield gif and webp bytes, the video codec yields webp bytes),
the unpack, animation-convert and video-convert stages preserve the
name/bytes coherence invariant: any object they return satisfies
`SuffixOk` whenever their input did. The resize stage is excluded: it
re-encodes to webp without renaming (see the refutation of the full
four-stage statement). -/
theorem conversion_stages_preserve_suffix (enc : Bytes → Option Name)
    (gz : Bytes → Except String Bytes) (lc : LottieConv)
    (w2w : Bytes → Option Nat → Option Nat → Except String (Bytes × Nat × Nat))
    (hgz : ∀ b out, enc b = some ("tgs".toList) → gz b = .ok out →
      enc out = some ("lottie".toList))
    (hgif : ∀ b sz tc out, lc.gif b sz tc = .ok out → enc out = some ("gif".toList))
    (hwebp : ∀ b sz out, lc.webp b sz = .ok out → enc out = some ("webp".toList))
    (hw2w : ∀ b ow oh out w h, w2w b ow oh = .ok (out, w, h) →
      enc out = some ("webp".toList))
    (img : Image) (fmt : AnimationFormat) (mw mh ow oh : Option Nat)
    (hok : SuffixOk enc img) :
    (∀ out, Image.unpack_tgs gz img = .ok out → SuffixOk enc out) ∧
    (∀ out, Image.convert_lottie gz lc fmt mw mh img = .ok out → SuffixOk enc out) ∧
    (∀ out, Image.convert_webm2webp w2w ow oh img = .ok out → SuffixOk enc out) := by
  refine ⟨?_, ?_, ?_⟩
  · intro out hout
    cases hets : endsWith img.file_name (".tgs".toList) with
    | false =>
      unfold Image.unpack_tgs at hout
      rw [hets] at hout
      simp at hout
      exact hout ▸ hok
    | true =>
      obtain ⟨t, ht⟩ := endsWith_iff.1 hets
      unfold Image.unpack_tgs at hout
      rw [hets] at hout
      simp only [if_true] at hout
      cases hgz' : gz img.data with
      | error e =>
        rw [hgz'] at hout
        cases hout
      | ok o =>
        rw [hgz'] at hout
        cases hout
        have hn : dropRight img.file_name 3 ++ "lottie".toList = t ++ ".lottie".toList := by
          rw [← ht]
          exact tgs_rename t
        rw [show ({ img with
            data := o,
            file_name := dropRight img.file_name 3 ++ "lottie".toList } : Image) =
            ⟨t ++ ".lottie".toList, o, img.width, img.height⟩ by rw [hn]]
        exact suffixOk_of_concat (by decide) (by decide)
          (fun hf => hgz img.data o
            (suffixOk_elim hok ht.symm (by decide) (by decide) hf) hgz')
  · intro out hout
    cases hel : endsWith img.file_name (".lottie".toList) with
    | false =>
      unfold Image.convert_lottie at hout
      rw [hel] at hout
      simp at hout
      exact hout ▸ hok
    | true =>
      obtain ⟨t, ht⟩ := endsWith_iff.1 hel
      have hsl : (".lotti".toList ++ ['e']) <:+ img.file_name := endsWith_iff.1 hel
      have hns : ¬ (".tg".toList ++ ['s']) <:+ img.file_name :=
        not_suffix_of_last_ne hsl (by decide)
      have hnt : endsWith img.file_name (".tgs".toList) = false :=
        endsWith_false_iff.2 hns
      have hunp : Image.unpack_tgs gz img = .ok img := by
        unfold Image.unpack_tgs
        rw [hnt]
        simp
      unfold Image.convert_lottie at hout
      rw [hel] at hout
      simp only [if_true, hunp] at hout
      cases hload : lc.load img.data with
      | none =>
        simp only [hload] at hout
        cases hout
      | some wh =>
        simp only [hload] at hout
        obtain ⟨w, h⟩ := wh
        cases fmt with
        | Gif tc =>
          cases hgif' : lc.gif img.data ( resize_preserving_aspect_ratio w h mw mh) tc with
          | error e =>
            simp only [hgif'] at hout
            cases hout
          | ok d =>
            simp only [hgif'] at hout
            cases hout
            have hn : dropRight img.file_name 6 ++ "gif".toList = t ++ ".gif".toList := by
              rw [← ht]
              exact lottie_rename_gif t
            rw [show ({ file_name := dropRight img.file_name 6 ++ "gif".toList,
                        data := d,
                        width := ( resize_preserving_aspect_ratio w h mw mh).1,
                        height := ( resize_preserving_aspect_ratio w h mw mh).2 } : Image) =
                ⟨t ++ ".gif".toList, d,
                  ( resize_preserving_aspect_ratio w h mw mh).1,
                  ( resize_preserving_aspect_ratio w h mw mh).2⟩ by rw [hn]]
            exact suffixOk_of_concat (by decide) (by decide)
              (fun _ => hgif img.data _ tc d hgif')
        | Webp =>
          cases hwebp' : lc.webp img.data ( resize_preserving_aspect_ratio w h mw mh) with
          | error e =>
            simp only [hwebp'] at hout
            cases hout
          | ok d =>
            simp only [hwebp'] at hout
            cases hout
            have hn : dropRight img.file_name 6 ++ "webp".toList = t ++ ".webp".toList := by
              rw [← ht]
              exact lottie_rename_webp t
            rw [show ({ file_name := dropRight img.file_name 6 ++ "webp".toList,
                        data := d,
                        width := ( resize_preserving_aspect_ratio w h mw mh).1,
                        height := ( resize_preserving_aspect_ratio w h mw mh).2 } : Image) =
                ⟨t ++ ".webp".toList, d,
                  ( resize_preserving_aspect_ratio w h mw mh).1,
                  ( resize_preserving_aspect_ratio w h mw mh).2⟩ by rw [hn]]
            exact suffixOk_of_concat (by decide) (by decide)
              (fun _ => hwebp img.data _ d hwebp')
  · intro out hout
    cases hew : endsWith img.file_name (".webm".toList) with
    | false =>
      unfold Image.convert_webm2webp at hout
      rw [hew] at hout
      simp at hout
      exact hout ▸ hok
    | true =>
      obtain ⟨t, ht⟩ := endsWith_iff.1 hew
      unfold Image.convert_webm2webp at hout
      rw [hew] at hout
      simp only [if_true] at hout
      cases hvid : w2w img.data ow oh with
      | error e =>
        simp only [hvid] at hout
        cases hout
      | ok r =>
        simp only [hvid] at hout
        obtain ⟨d, w, h⟩ := r
        cases hout
        have hn : dropRight img.file_name 1 ++ "p".toList = t ++ ".webp".toList := by
          rw [← ht]
          exact webm_rename t
        rw [show ({ file_name := dropRight img.file_name 1 ++ "p".toList,
                    data := d,
                    width := w,
                    height := h } : Image) =
            ⟨t ++ ".webp".toList, d, w, h⟩ by rw [hn]]
        exact suffixOk_of_concat (by decide) (by decide)
          (fun _ => hw2w img.data ow oh d w h hvid)

/-- Statement of C2 as claimed: for every byte-format tagging `enc` and
all collaborators whose outputs are correctly tagged, all four stages
(unpack, animation-convert, video-convert and resize) preserve the
name/bytes coherence invariant `SuffixOk`. Refuted below: `resize`
re-encodes to webp but keeps the old name. -/
def StageSuffixInvariant : Prop :=
  ∀ (enc : Bytes → Option Name) (gz : Bytes → Except String Bytes)
    (lc : LottieConv)
    (w2w : Bytes → Option Nat → Option Nat → Except String (Bytes × Nat × Nat))
    (codec : StillCodec),
    (∀ b out, enc b = some ("tgs".toList) → gz b = .ok out →
      enc out = some ("lottie".toList)) →
    (∀ b sz tc out, lc.gif b sz tc = .ok out → enc out = some ("gif".toList)) →
    (∀ b sz out, lc.webp b sz = .ok out → enc out = some ("webp".toList)) →
    (∀ b ow oh out w h, w2w b ow oh = .ok (out, w, h) →
      enc out = some ("webp".toList)) →
    (∀ b w h, enc (codec.encodeWebp b w h) = some ("webp".toList)) →
    ∀ (img : Image) (fmt : AnimationFormat) (mw mh ow oh : Option Nat) (r1 r2 : Nat),
      SuffixOk enc img →
      (∀ out, Image.unpack_tgs gz img = .ok out → SuffixOk enc out) ∧
      (∀ out, Image.convert_lottie gz lc fmt mw mh img = .ok out → SuffixOk enc out) ∧
      (∀ out, Image.convert_webm2webp w2w ow oh img = .ok out → SuffixOk enc out) ∧
      (∀ out, Image.resize codec img r1 r2 = .ok out → SuffixOk enc out)

/-- Concrete format tagging for the refutation: the first byte of a
buffer names its format. -/
def cEnc : Bytes → Option Name := fun b =>
  if b.head? = some 0 then some ("tgs".toList)
  else if b.head? = some 1 then some ("lottie".toList)
  else if b.head? = some 3 then some ("webp".toList)
  else if b.head? = some 4 then some ("gif".toList)
  else if b.head? = some 5 then some ("png".toList)
  else none

/-- Concrete gzip collaborator: tags its output as lottie bytes. -/
def cGz : Bytes → Except String Bytes := fun b => .ok (1 :: b)

/-- Concrete lottie renderer: produces gif-tagged and webp-tagged
buffers. -/
def cLottie : LottieConv :=
  ⟨fun _ => some (10, 10), fun _ _ _ => .ok [4], fun _ _ => .ok [3]⟩

/-- Concrete video codec: produces webp-tagged buffers. -/
def cW2W : Bytes → Option Nat → Option Nat → Except String (Bytes × Nat × Nat) :=
  fun _ _ _ => .ok ([3], 5, 5)

/-- Concrete still-image codec: decodes everything and encodes to
webp-tagged buffers. -/
def cCodec : StillCodec := ⟨fun _ => some (10, 10), fun _ _ _ => [3]⟩

/-- Concrete png image whose name and bytes cohere. -/
def cImg : Image := ⟨"a.png".toList, [5], 0, 0⟩

theorem cGz_spec : ∀ b out, cEnc b = some ("tgs".toList) → cGz b = .ok out →
    cEnc out = some ("lottie".toList) := by
  intro b out _ hout
  cases hout
  rfl

theorem cGif_spec : ∀ b sz tc out, cLottie.gif b sz tc = .ok out →
    cEnc out = some ("gif".toList) := by
  intro b sz tc out hout
  cases hout
  rfl

theorem cWebp_spec : ∀ b sz out, cLottie.webp b sz = .ok out →
    cEnc out = some ("webp".toList) := by
  intro b sz out hout
  cases hout
  rfl

theorem cW2W_spec : ∀ b ow oh out w h, cW2W b ow oh = .ok (out, w, h) →
    cEnc out = some ("webp".toList) := by
  intro b ow oh out w h hout
  cases hout
  rfl

theorem cCodec_spec : ∀ b w h, cEnc (cCodec.encodeWebp b w h) = some ("webp".toList) :=
  fun _ _ _ => rfl

theorem cImg_suffixOk : SuffixOk cEnc cImg := by
  intro e he
  rw [show cImg.file_name = "a.png".toList from rfl,
    show extension ("a.png".toList) = some ("png".toList) from by decide] at he
  cases he
  rfl

/-- C2 (counterexample): the four-stage coherence claim is false. With
well-behaved collaborators and a coherent `a.png` input, `resize`
returns an object still named `a.png` whose bytes are the webp-tagged
output of the encoder, a mismatched (name, bytes) pair. -/
theorem stage_suffix_invariant_refuted : ¬ StageSuffixInvariant := by
  intro hinv
  have h4 := (hinv cEnc cGz cLottie cW2W cCodec cGz_spec cGif_spec cWebp_spec
    cW2W_spec cCodec_spec cImg .Webp none none none none 9 9 cImg_suffixOk).2.2.2
  have hres : Image.resize cCodec cImg 9 9 = .ok ⟨"a.png".toList, [3], 9, 9⟩ := by
    decide
  have hso := h4 ⟨"a.png".toList, [3], 9, 9⟩ hres
  have hpng := hso ("png".toList) (by decide)
  exact absurd hpng (by decide)

theorem cImgT_suffixOk : SuffixOk cEnc ⟨"a.tgs".toList, [0], 2, 3⟩ := by
  intro e he
  rw [show (Image.mk ("a.tgs".toList) [0] 2 3).file_name = "a.tgs".toList from rfl,
    show extension ("a.tgs".toList) = some ("tgs".toList) from by decide] at he
  cases he
  rfl

/-- Witness for the amended C2 theorem: the unpack stage applied to a
coherent concrete `.tgs` image yields an object whose lottie-tagged
bytes match its `.lottie` name. -/
theorem conversion_stages_preserve_suffix_witness :
    cEnc [1, 0] = some ("lottie".toList) :=
  ((conversion_stages_preserve_suffix cEnc cGz cLottie cW2W cGz_spec cGif_spec
      cWebp_spec cW2W_spec ⟨"a.tgs".toList, [0], 2, 3⟩ .Webp none none none none
      cImgT_suffixOk).1
    ⟨"a.lottie".toList, [1, 0], 2, 3⟩ rfl) ("lottie".toList) (by decide)

/-- Statement of the unconditional no-extension part of C7 as claimed:
for every image and cache, a name without an extension makes `upload`
fail with `NoMimeType`. Refuted below: a cache hit returns the stored
locator before the mime type is ever derived. -/
def NoExtAlwaysFails : Prop :=
  ∀ (S : Type) (dbm : DatabaseModel S) (hash : Bytes → Nat)
    (remote : Name → Bytes → Name → Except String Mxc) (img : Image) (db : Option S),
    extension img.file_name = none →
    (Image.upload dbm hash remote img db).result = .error .NoMimeType

/-- C7 (counterexample): an extensionless image whose fingerprint is
already cached uploads successfully with `is_new = false`, so `upload`
does not universally fail with `NoMimeType` on extensionless names. -/
theorem no_ext_always_fails_refuted : ¬ NoExtAlwaysFails := by
  intro h
  have hc := h (List (Nat × String))
    ⟨fun s fp => .ok (List.lookup fp s), fun s fp u => .ok ((fp, u) :: s)⟩
    (fun b => b.length) (fun _ _ _ => .ok ⟨"mxc1"⟩)
    ⟨"noext".toList, [1], 0, 0⟩ (some [(1, "u")]) (by decide)
  have hc' : (Except.ok ((⟨"u"⟩ : Mxc), false) : Except Error (Mxc × Bool)) =
      .error .NoMimeType := hc
  exact Except.noConfusion hc'
